import Mathlib

/-!
Shallow embedding of `docs/scripts/fd.b.py`: RBF-FD assembly of the 2-D
static linear-elasticity system with a fixed boundary, a free (traction)
boundary and ghost nodes.

The script's own code (node-group bookkeeping, the assembly sequence of
`weight_matrix` / `add_rows` calls, the right-hand side, the strain
post-processing) is embedded directly.  Two capabilities live outside the
provided sources and are modelled from the spec's contracts for them:

* `weight_matrix` (the stencil/interpolation capability): it returns, for
  each evaluation point, the linear combination of the requested
  derivative terms, each term being a per-evaluation-point coefficient
  times the weights approximating that single derivative.  The family of
  single-derivative weight matrices over the full node set is abstracted
  as a parameter `D : ℕ → ℕ → Fin N → Fin N → ℚ` (`D a b p j` is the
  weight of node `j` when approximating ∂^(a+b)/∂x^a∂y^b at node `p`).
* `add_rows` (row scatter): writes the rows of `B` into the rows of `A`
  selected by `idx`, by row replacement (last write per row wins), per
  the spec's row-assignment policy.

Numbers are modelled as exact rationals `ℚ`; the strain post-processor,
which takes a real square root, is modelled over `ℝ`.
-/

set_option maxRecDepth 8000

namespace RBF

/-- Replace row `r` of the row-indexed family `M` by the value `v`. -/
def upd {N : ℕ} {α : Type} (M : Fin N → α) (r : Fin N) (v : α) : Fin N → α :=
  fun s => if s = r then v else M s

/-- Sequential row replacement: process `(row index, value)` pairs left to
right, each write replacing the previous content of that row. -/
def scatter {N : ℕ} {α : Type} (M : Fin N → α) (ps : List (Fin N × α)) : Fin N → α :=
  ps.foldl (fun A p => upd A p.1 p.2) M

/-- Modelled from the spec: `rbf.fd.add_rows` (repository code outside the
provided sources) writes the rows of `B` into the rows of `A` whose indices
are listed in `idx`, replacing (not accumulating with) the previous row
content — the spec's row-assignment policy "row replacement, not
accumulation". -/
def add_rows {N : ℕ} {α : Type} (A : Fin N → α) (B : List α) (idx : List (Fin N)) : Fin N → α :=
  scatter A (idx.zip B)

/-- Modelled from the spec: the stencil/interpolation capability
(`rbf.fd.weight_matrix`, outside the provided sources).  Given the abstract
single-derivative weight family `D`, a list of evaluation nodes and a list
of ((x-order, y-order), per-evaluation-point coefficient) terms, it returns
one row per evaluation node: the coefficient-weighted linear combination of
the single-derivative weight rows at that node. -/
def weight_matrix {N : ℕ} (D : ℕ → ℕ → Fin N → Fin N → ℚ) (eval : List (Fin N))
    (terms : List ((ℕ × ℕ) × (Fin N → ℚ))) : List (Fin N → ℚ) :=
  eval.map (fun p j => (terms.map (fun t => t.2 p * D t.1.1 t.1.2 p j)).sum)

/-- The node groups returned by the node-placement capability: lists of
node indices for the interior, the fixed boundary, the free boundary and
the ghost nodes attached to the free boundary (source: `idx[...]`). -/
structure NodeGroups (N : ℕ) where
  interior : List (Fin N)
  fixed : List (Fin N)
  free : List (Fin N)
  free_ghosts : List (Fin N)

/-- Source line 51: `idx['interior+free'] = hstack(interior, free)`. -/
def interiorFree {N : ℕ} (g : NodeGroups N) : List (Fin N) :=
  g.interior ++ g.free

/-- Source line 53: `idx['interior+ghosts'] = hstack(interior, free_ghosts)`. -/
def interiorGhosts {N : ℕ} (g : NodeGroups N) : List (Fin N) :=
  g.interior ++ g.free_ghosts

/-- Source line 55: `idx['interior+boundary'] = hstack(interior, free, fixed)`. -/
def interiorBoundary {N : ℕ} (g : NodeGroups N) : List (Fin N) :=
  g.interior ++ g.free ++ g.fixed

/-- The all-zero N×N block (source line 60: `sp.csr_matrix((N, N))`). -/
def zeroM (N : ℕ) : Fin N → Fin N → ℚ :=
  fun _ _ => 0

/-- Assembly of the xx block, with the two traction-stage coefficient
arrays `c1`, `c2` abstracted as parameters (the script instantiates them
from `normals`, `lamb`, `mu`; see `G_xx`).  Stage 1 (lines 67-81): PDE
terms `(λ+2μ)·∂²/∂x² + μ·∂²/∂y²` at `interior+free`, rows written to
`interior+ghosts`.  Stage 2 (lines 98-104): Dirichlet term `1·(0,0)` at
`fixed`, rows written to `fixed`.  Stage 3 (lines 111-125): traction terms
`c1·∂/∂x + c2·∂/∂y` at `free`, rows written to `free`. -/
def G_xx_gen {N : ℕ} (D : ℕ → ℕ → Fin N → Fin N → ℚ) (g : NodeGroups N)
    (lamb mu : ℚ) (c1 c2 : Fin N → ℚ) : Fin N → Fin N → ℚ :=
  add_rows
    (add_rows
      (add_rows (zeroM N)
        (weight_matrix D (interiorFree g)
          [((2, 0), fun _ => lamb + 2 * mu), ((0, 2), fun _ => mu)])
        (interiorGhosts g))
      (weight_matrix D g.fixed [((0, 0), fun _ => 1)]) g.fixed)
    (weight_matrix D g.free [((1, 0), c1), ((0, 1), c2)]) g.free

/-- Assembly of the xy block (no Dirichlet stage).  Stage 1 (lines 70-84):
PDE terms `λ·∂²/∂x∂y + μ·∂²/∂x∂y` at `interior+free`, written to
`interior+ghosts`.  Stage 2 (lines 114-128): traction terms
`c1·∂/∂y + c2·∂/∂x` at `free`, written to `free`. -/
def G_xy_gen {N : ℕ} (D : ℕ → ℕ → Fin N → Fin N → ℚ) (g : NodeGroups N)
    (lamb mu : ℚ) (c1 c2 : Fin N → ℚ) : Fin N → Fin N → ℚ :=
  add_rows
    (add_rows (zeroM N)
      (weight_matrix D (interiorFree g) [((1, 1), fun _ => lamb), ((1, 1), fun _ => mu)])
      (interiorGhosts g))
    (weight_matrix D g.free [((0, 1), c1), ((1, 0), c2)]) g.free

/-- Assembly of the yx block (no Dirichlet stage).  Stage 1 (lines 73-87):
PDE terms `μ·∂²/∂x∂y + λ·∂²/∂x∂y` at `interior+free`, written to
`interior+ghosts`.  Stage 2 (lines 117-131): traction terms
`c1·∂/∂y + c2·∂/∂x` at `free`, written to `free`. -/
def G_yx_gen {N : ℕ} (D : ℕ → ℕ → Fin N → Fin N → ℚ) (g : NodeGroups N)
    (lamb mu : ℚ) (c1 c2 : Fin N → ℚ) : Fin N → Fin N → ℚ :=
  add_rows
    (add_rows (zeroM N)
      (weight_matrix D (interiorFree g) [((1, 1), fun _ => mu), ((1, 1), fun _ => lamb)])
      (interiorGhosts g))
    (weight_matrix D g.free [((0, 1), c1), ((1, 0), c2)]) g.free

/-- Assembly of the yy block.  Stage 1 (lines 76-90): PDE terms
`(λ+2μ)·∂²/∂y² + μ·∂²/∂x²` at `interior+free`, written to
`interior+ghosts`.  Stage 2 (lines 100-107): Dirichlet term `1·(0,0)` at
`fixed`.  Stage 3 (lines 120-134): traction terms `c1·∂/∂y + c2·∂/∂x` at
`free`, written to `free`. -/
def G_yy_gen {N : ℕ} (D : ℕ → ℕ → Fin N → Fin N → ℚ) (g : NodeGroups N)
    (lamb mu : ℚ) (c1 c2 : Fin N → ℚ) : Fin N → Fin N → ℚ :=
  add_rows
    (add_rows
      (add_rows (zeroM N)
        (weight_matrix D (interiorFree g)
          [((0, 2), fun _ => lamb + 2 * mu), ((2, 0), fun _ => mu)])
        (interiorGhosts g))
      (weight_matrix D g.fixed [((0, 0), fun _ => 1)]) g.fixed)
    (weight_matrix D g.free [((0, 1), c1), ((1, 0), c2)]) g.free

/-- The script's xx block (lines 60-125): traction coefficients
`n_x·(λ+2μ)` on ∂/∂x and `n_y·μ` on ∂/∂y (line 111). -/
def G_xx {N : ℕ} (D : ℕ → ℕ → Fin N → Fin N → ℚ) (g : NodeGroups N)
    (nx ny : Fin N → ℚ) (lamb mu : ℚ) : Fin N → Fin N → ℚ :=
  G_xx_gen D g lamb mu (fun p => nx p * (lamb + 2 * mu)) (fun p => ny p * mu)

/-- The script's xy block (lines 61-128): traction coefficients `n_x·λ` on
∂/∂y and `n_y·μ` on ∂/∂x (line 114). -/
def G_xy {N : ℕ} (D : ℕ → ℕ → Fin N → Fin N → ℚ) (g : NodeGroups N)
    (nx ny : Fin N → ℚ) (lamb mu : ℚ) : Fin N → Fin N → ℚ :=
  G_xy_gen D g lamb mu (fun p => nx p * lamb) (fun p => ny p * mu)

/-- The script's yx block (lines 62-131): traction coefficients `n_x·μ` on
∂/∂y and `n_y·λ` on ∂/∂x (line 117). -/
def G_yx {N : ℕ} (D : ℕ → ℕ → Fin N → Fin N → ℚ) (g : NodeGroups N)
    (nx ny : Fin N → ℚ) (lamb mu : ℚ) : Fin N → Fin N → ℚ :=
  G_yx_gen D g lamb mu (fun p => nx p * mu) (fun p => ny p * lamb)

/-- The script's yy block (lines 63-134): traction coefficients
`n_y·(λ+2μ)` on ∂/∂y and `n_x·μ` on ∂/∂x (line 120). -/
def G_yy {N : ℕ} (D : ℕ → ℕ → Fin N → Fin N → ℚ) (g : NodeGroups N)
    (nx ny : Fin N → ℚ) (lamb mu : ℚ) : Fin N → Fin N → ℚ :=
  G_yy_gen D g lamb mu (fun p => ny p * (lamb + 2 * mu)) (fun p => nx p * mu)

/-- Write the constant `c` into every row of `v` listed in `idx` (numpy
fancy assignment `v[idx] = c`). -/
def setRows {N : ℕ} (v : Fin N → ℚ) (idx : List (Fin N)) (c : ℚ) : Fin N → ℚ :=
  add_rows v (idx.map (fun _ => c)) idx

/-- Source lines 143-148: the x half of the right-hand side — zeros, then
`d_x[interior+ghosts] = 0`, `d_x[free] = 0`, `d_x[fixed] = 0`. -/
def d_x {N : ℕ} (g : NodeGroups N) : Fin N → ℚ :=
  setRows (setRows (setRows (fun _ => 0) (interiorGhosts g) 0) g.free 0) g.fixed 0

/-- Source lines 144-152: the y half of the right-hand side — zeros, then
`d_y[interior+ghosts] = body_force`, `d_y[free] = 0`, `d_y[fixed] = 0`. -/
def d_y {N : ℕ} (g : NodeGroups N) (body_force : ℚ) : Fin N → ℚ :=
  setRows (setRows (setRows (fun _ => 0) (interiorGhosts g) body_force) g.free 0) g.fixed 0

/-- Source line 165: `e_xx = D_x.dot(u_x)` — the x-derivative operator
applied to the x displacement component.  The first-derivative operators
over the full node set (lines 163-164) are abstract collaborator outputs
`D_x`, `D_y`; over `ℝ` since the strain stage follows the real solve. -/
noncomputable def e_xx {N : ℕ} (D_x : Fin N → Fin N → ℝ) (u_x : Fin N → ℝ) : Fin N → ℝ :=
  fun p => ∑ j, D_x p j * u_x j

/-- Source line 166: `e_yy = D_y.dot(u_y)`. -/
noncomputable def e_yy {N : ℕ} (D_y : Fin N → Fin N → ℝ) (u_y : Fin N → ℝ) : Fin N → ℝ :=
  fun p => ∑ j, D_y p j * u_y j

/-- Source line 167: `e_xy = 0.5*(D_y.dot(u_x) + D_x.dot(u_y))`. -/
noncomputable def e_xy {N : ℕ} (D_x D_y : Fin N → Fin N → ℝ) (u_x u_y : Fin N → ℝ) :
    Fin N → ℝ :=
  fun p => (1 / 2) * ((∑ j, D_y p j * u_x j) + ∑ j, D_x p j * u_y j)

/-- Source line 169: `I2 = sqrt(e_xx**2 + e_yy**2 + 2*e_xy**2)`. -/
noncomputable def I2 {N : ℕ} (D_x D_y : Fin N → Fin N → ℝ) (u_x u_y : Fin N → ℝ) :
    Fin N → ℝ :=
  fun p => Real.sqrt (e_xx D_x u_x p ^ 2 + e_yy D_y u_y p ^ 2
    + 2 * e_xy D_x D_y u_x u_y p ^ 2)

/-- The x-equation residual of the stacked system `G u` (line 137:
`G_x = hstack(G_xx, G_xy)`): row `r` of the first `N` rows of `G`, applied
to the stacked displacement `(u_x, u_y)`. -/
abbrev xEq {N : ℕ} (D : ℕ → ℕ → Fin N → Fin N → ℚ) (g : NodeGroups N) (nx ny : Fin N → ℚ)
    (lamb mu : ℚ) (u_x u_y : Fin N → ℚ) (r : Fin N) : ℚ :=
  (∑ j, G_xx D g nx ny lamb mu r j * u_x j) + ∑ j, G_xy D g nx ny lamb mu r j * u_y j

/-- The y-equation residual of the stacked system `G u` (line 138:
`G_y = hstack(G_yx, G_yy)`). -/
abbrev yEq {N : ℕ} (D : ℕ → ℕ → Fin N → Fin N → ℚ) (g : NodeGroups N) (nx ny : Fin N → ℚ)
    (lamb mu : ℚ) (u_x u_y : Fin N → ℚ) (r : Fin N) : ℚ :=
  (∑ j, G_yx D g nx ny lamb mu r j * u_x j) + ∑ j, G_yy D g nx ny lamb mu r j * u_y j

/-- The stacked displacement `(u_x, u_y)` solves the assembled 2N×2N
system `G u = d` (lines 137-157). -/
abbrev solves {N : ℕ} (D : ℕ → ℕ → Fin N → Fin N → ℚ) (g : NodeGroups N) (nx ny : Fin N → ℚ)
    (lamb mu body_force : ℚ) (u_x u_y : Fin N → ℚ) : Prop :=
  ∀ r, xEq D g nx ny lamb mu u_x u_y r = d_x g r
    ∧ yEq D g nx ny lamb mu u_x u_y r = d_y g body_force r

/-- One assembly stage: a target row-index list and the rows to scatter. -/
abbrev Stage (N : ℕ) (α : Type) : Type := List (Fin N) × List α

/-- Apply one stage to a row-indexed state. -/
def applyStage {N : ℕ} {α : Type} (M : Fin N → α) (s : Stage N α) : Fin N → α :=
  add_rows M s.2 s.1

/-- Apply a list of stages left to right. -/
def applyStages {N : ℕ} {α : Type} (M : Fin N → α) (l : List (Stage N α)) : Fin N → α :=
  l.foldl applyStage M

/-- Two stages with disjoint target row sets. -/
def StageDisjoint {N : ℕ} {α : Type} (s t : Stage N α) : Prop :=
  ∀ r, r ∈ s.1 → r ∉ t.1

/-- The three stages of the xx-block assembly, in source order: PDE rows,
Dirichlet rows, traction rows. -/
def xxStages {N : ℕ} (D : ℕ → ℕ → Fin N → Fin N → ℚ) (g : NodeGroups N)
    (lamb mu : ℚ) (c1 c2 : Fin N → ℚ) : List (Stage N (Fin N → ℚ)) :=
  [(interiorGhosts g,
    weight_matrix D (interiorFree g) [((2, 0), fun _ => lamb + 2 * mu), ((0, 2), fun _ => mu)]),
   (g.fixed, weight_matrix D g.fixed [((0, 0), fun _ => 1)]),
   (g.free, weight_matrix D g.free [((1, 0), c1), ((0, 1), c2)])]

/-- The two stages of the xy-block assembly, in source order. -/
def xyStages {N : ℕ} (D : ℕ → ℕ → Fin N → Fin N → ℚ) (g : NodeGroups N)
    (lamb mu : ℚ) (c1 c2 : Fin N → ℚ) : List (Stage N (Fin N → ℚ)) :=
  [(interiorGhosts g,
    weight_matrix D (interiorFree g) [((1, 1), fun _ => lamb), ((1, 1), fun _ => mu)]),
   (g.free, weight_matrix D g.free [((0, 1), c1), ((1, 0), c2)])]

/-- The two stages of the yx-block assembly, in source order. -/
def yxStages {N : ℕ} (D : ℕ → ℕ → Fin N → Fin N → ℚ) (g : NodeGroups N)
    (lamb mu : ℚ) (c1 c2 : Fin N → ℚ) : List (Stage N (Fin N → ℚ)) :=
  [(interiorGhosts g,
    weight_matrix D (interiorFree g) [((1, 1), fun _ => mu), ((1, 1), fun _ => lamb)]),
   (g.free, weight_matrix D g.free [((0, 1), c1), ((1, 0), c2)])]

/-- The three stages of the yy-block assembly, in source order. -/
def yyStages {N : ℕ} (D : ℕ → ℕ → Fin N → Fin N → ℚ) (g : NodeGroups N)
    (lamb mu : ℚ) (c1 c2 : Fin N → ℚ) : List (Stage N (Fin N → ℚ)) :=
  [(interiorGhosts g,
    weight_matrix D (interiorFree g) [((0, 2), fun _ => lamb + 2 * mu), ((2, 0), fun _ => mu)]),
   (g.fixed, weight_matrix D g.fixed [((0, 0), fun _ => 1)]),
   (g.free, weight_matrix D g.free [((0, 1), c1), ((1, 0), c2)])]

/-- The three stages of the y right-hand-side assembly, in source order
(lines 150-152). -/
def dyStages {N : ℕ} (g : NodeGroups N) (body_force : ℚ) : List (Stage N ℚ) :=
  [(interiorGhosts g, (interiorGhosts g).map (fun _ => body_force)),
   (g.free, g.free.map (fun _ => (0 : ℚ))),
   (g.fixed, g.fixed.map (fun _ => (0 : ℚ)))]

/-- Modelled from the spec: the error taxonomy of the Block Assembler for
the only abortive failure it describes — "fails with a DimensionMismatch
error if any block's produced row count disagrees with its target index
set size". -/
inductive AssemblyError : Type where
  | dimensionMismatch : ℕ → ℕ → AssemblyError
deriving DecidableEq

/-- Modelled from the spec: `add_rows` with the Block Assembler's
dimension check — it fails with a `dimensionMismatch` when the produced
row count (`B.length`) disagrees with the target index set size
(`idx.length`), and otherwise scatters the rows. -/
def add_rows_checked {N : ℕ} {α : Type} (A : Fin N → α) (B : List α) (idx : List (Fin N)) :
    Except AssemblyError (Fin N → α) :=
  if B.length = idx.length then Except.ok (add_rows A B idx)
  else Except.error (AssemblyError.dimensionMismatch B.length idx.length)

/-- The script's block assembly (lines 60-134) with every `add_rows` call
replaced by its dimension-checked variant, the calls in source order.
There is no other failure path: in particular the source raises nothing
when `fixed` is empty. -/
def assembleChecked {N : ℕ} (D : ℕ → ℕ → Fin N → Fin N → ℚ) (g : NodeGroups N)
    (nx ny : Fin N → ℚ) (lamb mu : ℚ) :
    Except AssemblyError ((Fin N → Fin N → ℚ) × (Fin N → Fin N → ℚ)
      × (Fin N → Fin N → ℚ) × (Fin N → Fin N → ℚ)) :=
  (add_rows_checked (zeroM N)
    (weight_matrix D (interiorFree g)
      [((2, 0), fun _ => lamb + 2 * mu), ((0, 2), fun _ => mu)])
    (interiorGhosts g)).bind fun gxx1 =>
  (add_rows_checked (zeroM N)
    (weight_matrix D (interiorFree g)
      [((1, 1), fun _ => lamb), ((1, 1), fun _ => mu)])
    (interiorGhosts g)).bind fun gxy1 =>
  (add_rows_checked (zeroM N)
    (weight_matrix D (interiorFree g)
      [((1, 1), fun _ => mu), ((1, 1), fun _ => lamb)])
    (interiorGhosts g)).bind fun gyx1 =>
  (add_rows_checked (zeroM N)
    (weight_matrix D (interiorFree g)
      [((0, 2), fun _ => lamb + 2 * mu), ((2, 0), fun _ => mu)])
    (interiorGhosts g)).bind fun gyy1 =>
  (add_rows_checked gxx1 (weight_matrix D g.fixed [((0, 0), fun _ => 1)]) g.fixed).bind
    fun gxx2 =>
  (add_rows_checked gyy1 (weight_matrix D g.fixed [((0, 0), fun _ => 1)]) g.fixed).bind
    fun gyy2 =>
  (add_rows_checked gxx2
    (weight_matrix D g.free
      [((1, 0), fun p => nx p * (lamb + 2 * mu)), ((0, 1), fun p => ny p * mu)])
    g.free).bind fun gxx3 =>
  (add_rows_checked gxy1
    (weight_matrix D g.free
      [((0, 1), fun p => nx p * lamb), ((1, 0), fun p => ny p * mu)])
    g.free).bind fun gxy3 =>
  (add_rows_checked gyx1
    (weight_matrix D g.free
      [((0, 1), fun p => nx p * mu), ((1, 0), fun p => ny p * lamb)])
    g.free).bind fun gyx3 =>
  (add_rows_checked gyy2
    (weight_matrix D g.free
      [((0, 1), fun p => ny p * (lamb + 2 * mu)), ((1, 0), fun p => nx p * mu)])
    g.free).bind fun gyy3 =>
  Except.ok (gxx3, gxy3, gyx3, gyy3)

/-! Concrete data for witnesses and counterexamples. -/

/-- Concrete 4-node layout: one interior node, one fixed node, one free
node and its ghost. -/
def g4 : NodeGroups 4 :=
  ⟨[0], [1], [2], [3]⟩

/-- Concrete weight family over 4 nodes, with distinct values per
derivative order and position. -/
def D4 : ℕ → ℕ → Fin 4 → Fin 4 → ℚ :=
  fun a b p j => (a : ℚ) + 2 * (b : ℚ) + 3 * ((p : ℕ) : ℚ) + 5 * ((j : ℕ) : ℚ)

/-- Concrete weight family over 4 nodes whose (0,0) member is the
identity matrix (the stencil contract asserted at source lines 93-95). -/
def D4id : ℕ → ℕ → Fin 4 → Fin 4 → ℚ :=
  fun a b p j =>
    if a = 0 ∧ b = 0 then (if j = p then 1 else 0)
    else (a : ℚ) + 2 * (b : ℚ) + 3 * ((p : ℕ) : ℚ) + 5 * ((j : ℕ) : ℚ)

/-- Concrete normal x-components over 4 nodes. -/
def nx4 : Fin 4 → ℚ :=
  fun p => ((p : ℕ) : ℚ) + 1

/-- Concrete normal y-components over 4 nodes. -/
def ny4 : Fin 4 → ℚ :=
  fun p => ((p : ℕ) : ℚ) - 2

/-- Concrete overlapping 3-node layout: the ghost list reuses the fixed
node, so the PDE stage and the Dirichlet stage target a common row. -/
def gOv : NodeGroups 3 :=
  ⟨[0], [1], [2], [1]⟩

/-- Concrete 3-node layout with an empty `fixed` group. -/
def gNoFix : NodeGroups 3 :=
  ⟨[0], [], [1], [2]⟩

/-- Concrete 2-node layout: one fixed node, one interior node, no free
boundary. -/
def g2 : NodeGroups 2 :=
  ⟨[1], [0], [], []⟩

/-- Weight family over 2 nodes equal to the identity at every order. -/
def D2id : ℕ → ℕ → Fin 2 → Fin 2 → ℚ :=
  fun _ _ p j => if j = p then 1 else 0

/-- The zero field over 2 nodes. -/
def z2 : Fin 2 → ℚ :=
  fun _ => 0

/-- A nonzero displacement component over 2 nodes: 1 at the interior
node, 0 at the fixed node. -/
def u2 : Fin 2 → ℚ :=
  fun r => if r = 1 then 1 else 0

/-- Zero normals over 3 nodes. -/
def n3 : Fin 3 → ℚ :=
  fun _ => 0

/-- Concrete weight family over 3 nodes. -/
def D3c : ℕ → ℕ → Fin 3 → Fin 3 → ℚ :=
  fun a b p j => (a : ℚ) + 2 * (b : ℚ) + 3 * ((p : ℕ) : ℚ) + 5 * ((j : ℕ) : ℚ)

/-! Basic lemmas about the row-scatter primitives. -/

theorem scatter_notin {N : ℕ} {α : Type} (M : Fin N → α) (ps : List (Fin N × α)) (r : Fin N)
    (h : r ∉ ps.map Prod.fst) : scatter M ps r = M r := by
  induction ps generalizing M with
  | nil => rfl
  | cons p t ih =>
      simp only [List.map_cons, List.mem_cons, not_or] at h
      have hstep : scatter M (p :: t) = scatter (upd M p.1 p.2) t := rfl
      rw [hstep, ih _ h.2]
      simp [upd, h.1]

theorem scatter_mem_congr {N : ℕ} {α : Type} (M M2 : Fin N → α) (ps : List (Fin N × α))
    (r : Fin N) (h : r ∈ ps.map Prod.fst) : scatter M ps r = scatter M2 ps r := by
  induction ps generalizing M M2 with
  | nil => simp at h
  | cons p t ih =>
      by_cases ht : r ∈ t.map Prod.fst
      · exact ih _ _ ht
      · have hr : r = p.1 := by
          simp only [List.map_cons, List.mem_cons] at h
          tauto
        have h1 : scatter M (p :: t) = scatter (upd M p.1 p.2) t := rfl
        have h2 : scatter M2 (p :: t) = scatter (upd M2 p.1 p.2) t := rfl
        rw [h1, h2, scatter_notin _ _ _ ht, scatter_notin _ _ _ ht]
        simp [upd, hr]

theorem add_rows_notin {N : ℕ} {α : Type} (A : Fin N → α) (B : List α) (idx : List (Fin N))
    (r : Fin N) (h : r ∉ idx) : add_rows A B idx r = A r := by
  apply scatter_notin
  intro hmem
  rcases List.mem_map.1 hmem with ⟨⟨a, b⟩, hp, hfst⟩
  exact h (hfst ▸ (List.of_mem_zip hp).1)

theorem add_rows_map_self {N : ℕ} {α : Type} (A : Fin N → α) (f : Fin N → α)
    (idx : List (Fin N)) (r : Fin N) (h : r ∈ idx) : add_rows A (idx.map f) idx r = f r := by
  induction idx generalizing A with
  | nil => simp at h
  | cons i t ih =>
      by_cases ht : r ∈ t
      · exact ih (upd A i (f i)) ht
      · have hr : r = i := by
          rcases List.mem_cons.1 h with h1 | h2
          · exact h1
          · exact absurd h2 ht
        have hstep : add_rows A ((i :: t).map f) (i :: t) =
            scatter (upd A i (f i)) (t.zip (t.map f)) := rfl
        rw [hstep, scatter_notin]
        · simp [upd, hr]
        · intro hmem
          rcases List.mem_map.1 hmem with ⟨⟨a, b⟩, hp, hfst⟩
          exact ht (hfst ▸ (List.of_mem_zip hp).1)

theorem add_rows_get {N : ℕ} {α : Type} (A : Fin N → α) (B : List α) (idx : List (Fin N))
    (hnd : idx.Nodup) (k : ℕ) (hk : k < idx.length) (hk2 : k < B.length) :
    add_rows A B idx (idx.get ⟨k, hk⟩) = B.get ⟨k, hk2⟩ := by
  induction idx generalizing A B k with
  | nil => exact absurd hk (by simp)
  | cons i t ih =>
      cases B with
      | nil => exact absurd hk2 (by simp)
      | cons b bs =>
          cases k with
          | zero =>
              have hget : (i :: t).get ⟨0, hk⟩ = i := rfl
              have hstep : add_rows A (b :: bs) (i :: t) =
                  scatter (upd A i b) (t.zip bs) := rfl
              rw [hget, hstep, scatter_notin]
              · simp [upd]
              · intro hmem
                rcases List.mem_map.1 hmem with ⟨⟨a, c⟩, hp, hfst⟩
                exact (List.nodup_cons.1 hnd).1 (hfst ▸ (List.of_mem_zip hp).1)
          | succ m =>
              exact ih (upd A i b) bs (List.nodup_cons.1 hnd).2 m
                (Nat.lt_of_succ_lt_succ hk) (Nat.lt_of_succ_lt_succ hk2)

theorem weight_matrix_length {N : ℕ} (D : ℕ → ℕ → Fin N → Fin N → ℚ) (eval : List (Fin N))
    (terms : List ((ℕ × ℕ) × (Fin N → ℚ))) :
    (weight_matrix D eval terms).length = eval.length :=
  List.length_map _ _

theorem weight_matrix_get {N : ℕ} (D : ℕ → ℕ → Fin N → Fin N → ℚ) (eval : List (Fin N))
    (terms : List ((ℕ × ℕ) × (Fin N → ℚ))) (k : ℕ) (hk : k < eval.length)
    (hk2 : k < (weight_matrix D eval terms).length) :
    (weight_matrix D eval terms).get ⟨k, hk2⟩ =
      fun j => (terms.map
        (fun t => t.2 (eval.get ⟨k, hk⟩) * D t.1.1 t.1.2 (eval.get ⟨k, hk⟩) j)).sum := by
  simp [weight_matrix]

theorem setRows_notin {N : ℕ} (v : Fin N → ℚ) (idx : List (Fin N)) (c : ℚ) (r : Fin N)
    (h : r ∉ idx) : setRows v idx c r = v r :=
  add_rows_notin v _ idx r h

theorem setRows_mem {N : ℕ} (v : Fin N → ℚ) (idx : List (Fin N)) (c : ℚ) (r : Fin N)
    (h : r ∈ idx) : setRows v idx c r = c :=
  add_rows_map_self v (fun _ => c) idx r h

theorem add_rows_weight_self {N : ℕ} (A : Fin N → Fin N → ℚ) (D : ℕ → ℕ → Fin N → Fin N → ℚ)
    (idx : List (Fin N)) (terms : List ((ℕ × ℕ) × (Fin N → ℚ))) (r : Fin N) (h : r ∈ idx) :
    add_rows A (weight_matrix D idx terms) idx r =
      fun j => (terms.map (fun t => t.2 r * D t.1.1 t.1.2 r j)).sum :=
  add_rows_map_self A _ idx r h

theorem add_rows_weight_get {N : ℕ} (A : Fin N → Fin N → ℚ) (D : ℕ → ℕ → Fin N → Fin N → ℚ)
    (eval idx : List (Fin N)) (terms : List ((ℕ × ℕ) × (Fin N → ℚ))) (hnd : idx.Nodup)
    (k : ℕ) (hk : k < idx.length) (hk2 : k < eval.length) :
    add_rows A (weight_matrix D eval terms) idx (idx.get ⟨k, hk⟩) =
      fun j => (terms.map
        (fun t => t.2 (eval.get ⟨k, hk2⟩) * D t.1.1 t.1.2 (eval.get ⟨k, hk2⟩) j)).sum := by
  rw [add_rows_get A _ idx hnd k hk (by rw [weight_matrix_length]; exact hk2)]
  exact weight_matrix_get D eval terms k hk2 _

/-! Row-level characterization of each assembled block: the traction rows
(stage 3, rows in `free`), the Dirichlet rows (stage 2, rows in `fixed`,
xx and yy only), the PDE rows (stage 1, rows in `interior+ghosts`), and
untouched rows. -/

theorem G_xx_gen_free_row {N : ℕ} (D : ℕ → ℕ → Fin N → Fin N → ℚ) (g : NodeGroups N)
    (lamb mu : ℚ) (c1 c2 : Fin N → ℚ) (r : Fin N) (h : r ∈ g.free) :
    G_xx_gen D g lamb mu c1 c2 r = fun j => c1 r * D 1 0 r j + c2 r * D 0 1 r j := by
  unfold G_xx_gen
  rw [add_rows_weight_self _ _ _ _ _ h]
  funext j
  simp

theorem G_xy_gen_free_row {N : ℕ} (D : ℕ → ℕ → Fin N → Fin N → ℚ) (g : NodeGroups N)
    (lamb mu : ℚ) (c1 c2 : Fin N → ℚ) (r : Fin N) (h : r ∈ g.free) :
    G_xy_gen D g lamb mu c1 c2 r = fun j => c1 r * D 0 1 r j + c2 r * D 1 0 r j := by
  unfold G_xy_gen
  rw [add_rows_weight_self _ _ _ _ _ h]
  funext j
  simp

theorem G_yx_gen_free_row {N : ℕ} (D : ℕ → ℕ → Fin N → Fin N → ℚ) (g : NodeGroups N)
    (lamb mu : ℚ) (c1 c2 : Fin N → ℚ) (r : Fin N) (h : r ∈ g.free) :
    G_yx_gen D g lamb mu c1 c2 r = fun j => c1 r * D 0 1 r j + c2 r * D 1 0 r j := by
  unfold G_yx_gen
  rw [add_rows_weight_self _ _ _ _ _ h]
  funext j
  simp

theorem G_yy_gen_free_row {N : ℕ} (D : ℕ → ℕ → Fin N → Fin N → ℚ) (g : NodeGroups N)
    (lamb mu : ℚ) (c1 c2 : Fin N → ℚ) (r : Fin N) (h : r ∈ g.free) :
    G_yy_gen D g lamb mu c1 c2 r = fun j => c1 r * D 0 1 r j + c2 r * D 1 0 r j := by
  unfold G_yy_gen
  rw [add_rows_weight_self _ _ _ _ _ h]
  funext j
  simp

theorem G_xx_gen_fixed_row {N : ℕ} (D : ℕ → ℕ → Fin N → Fin N → ℚ) (g : NodeGroups N)
    (lamb mu : ℚ) (c1 c2 : Fin N → ℚ) (r : Fin N) (hfix : r ∈ g.fixed) (hfree : r ∉ g.free) :
    G_xx_gen D g lamb mu c1 c2 r = fun j => D 0 0 r j := by
  unfold G_xx_gen
  rw [add_rows_notin _ _ _ _ hfree, add_rows_weight_self _ _ _ _ _ hfix]
  funext j
  simp

theorem G_yy_gen_fixed_row {N : ℕ} (D : ℕ → ℕ → Fin N → Fin N → ℚ) (g : NodeGroups N)
    (lamb mu : ℚ) (c1 c2 : Fin N → ℚ) (r : Fin N) (hfix : r ∈ g.fixed) (hfree : r ∉ g.free) :
    G_yy_gen D g lamb mu c1 c2 r = fun j => D 0 0 r j := by
  unfold G_yy_gen
  rw [add_rows_notin _ _ _ _ hfree, add_rows_weight_self _ _ _ _ _ hfix]
  funext j
  simp

theorem G_xx_gen_pde_row {N : ℕ} (D : ℕ → ℕ → Fin N → Fin N → ℚ) (g : NodeGroups N)
    (lamb mu : ℚ) (c1 c2 : Fin N → ℚ) (hnd : (interiorGhosts g).Nodup)
    (k : ℕ) (hk : k < (interiorGhosts g).length) (hk2 : k < (interiorFree g).length)
    (hfix : (interiorGhosts g).get ⟨k, hk⟩ ∉ g.fixed)
    (hfree : (interiorGhosts g).get ⟨k, hk⟩ ∉ g.free) :
    G_xx_gen D g lamb mu c1 c2 ((interiorGhosts g).get ⟨k, hk⟩) =
      fun j => (lamb + 2 * mu) * D 2 0 ((interiorFree g).get ⟨k, hk2⟩) j
        + mu * D 0 2 ((interiorFree g).get ⟨k, hk2⟩) j := by
  unfold G_xx_gen
  rw [add_rows_notin _ _ _ _ hfree, add_rows_notin _ _ _ _ hfix,
      add_rows_weight_get _ _ _ _ _ hnd k hk hk2]
  funext j
  simp

theorem G_xy_gen_pde_row {N : ℕ} (D : ℕ → ℕ → Fin N → Fin N → ℚ) (g : NodeGroups N)
    (lamb mu : ℚ) (c1 c2 : Fin N → ℚ) (hnd : (interiorGhosts g).Nodup)
    (k : ℕ) (hk : k < (interiorGhosts g).length) (hk2 : k < (interiorFree g).length)
    (hfree : (interiorGhosts g).get ⟨k, hk⟩ ∉ g.free) :
    G_xy_gen D g lamb mu c1 c2 ((interiorGhosts g).get ⟨k, hk⟩) =
      fun j => lamb * D 1 1 ((interiorFree g).get ⟨k, hk2⟩) j
        + mu * D 1 1 ((interiorFree g).get ⟨k, hk2⟩) j := by
  unfold G_xy_gen
  rw [add_rows_notin _ _ _ _ hfree, add_rows_weight_get _ _ _ _ _ hnd k hk hk2]
  funext j
  simp

theorem G_yx_gen_pde_row {N : ℕ} (D : ℕ → ℕ → Fin N → Fin N → ℚ) (g : NodeGroups N)
    (lamb mu : ℚ) (c1 c2 : Fin N → ℚ) (hnd : (interiorGhosts g).Nodup)
    (k : ℕ) (hk : k < (interiorGhosts g).length) (hk2 : k < (interiorFree g).length)
    (hfree : (interiorGhosts g).get ⟨k, hk⟩ ∉ g.free) :
    G_yx_gen D g lamb mu c1 c2 ((interiorGhosts g).get ⟨k, hk⟩) =
      fun j => mu * D 1 1 ((interiorFree g).get ⟨k, hk2⟩) j
        + lamb * D 1 1 ((interiorFree g).get ⟨k, hk2⟩) j := by
  unfold G_yx_gen
  rw [add_rows_notin _ _ _ _ hfree, add_rows_weight_get _ _ _ _ _ hnd k hk hk2]
  funext j
  simp

theorem G_yy_gen_pde_row {N : ℕ} (D : ℕ → ℕ → Fin N → Fin N → ℚ) (g : NodeGroups N)
    (lamb mu : ℚ) (c1 c2 : Fin N → ℚ) (hnd : (interiorGhosts g).Nodup)
    (k : ℕ) (hk : k < (interiorGhosts g).length) (hk2 : k < (interiorFree g).length)
    (hfix : (interiorGhosts g).get ⟨k, hk⟩ ∉ g.fixed)
    (hfree : (interiorGhosts g).get ⟨k, hk⟩ ∉ g.free) :
    G_yy_gen D g lamb mu c1 c2 ((interiorGhosts g).get ⟨k, hk⟩) =
      fun j => (lamb + 2 * mu) * D 0 2 ((interiorFree g).get ⟨k, hk2⟩) j
        + mu * D 2 0 ((interiorFree g).get ⟨k, hk2⟩) j := by
  unfold G_yy_gen
  rw [add_rows_notin _ _ _ _ hfree, add_rows_notin _ _ _ _ hfix,
      add_rows_weight_get _ _ _ _ _ hnd k hk hk2]
  funext j
  simp

theorem G_xy_gen_untouched_row {N : ℕ} (D : ℕ → ℕ → Fin N → Fin N → ℚ) (g : NodeGroups N)
    (lamb mu : ℚ) (c1 c2 : Fin N → ℚ) (r : Fin N) (hig : r ∉ interiorGhosts g)
    (hfree : r ∉ g.free) : G_xy_gen D g lamb mu c1 c2 r = fun _ => 0 := by
  unfold G_xy_gen
  rw [add_rows_notin _ _ _ _ hfree, add_rows_notin _ _ _ _ hig]
  rfl

theorem G_yx_gen_untouched_row {N : ℕ} (D : ℕ → ℕ → Fin N → Fin N → ℚ) (g : NodeGroups N)
    (lamb mu : ℚ) (c1 c2 : Fin N → ℚ) (r : Fin N) (hig : r ∉ interiorGhosts g)
    (hfree : r ∉ g.free) : G_yx_gen D g lamb mu c1 c2 r = fun _ => 0 := by
  unfold G_yx_gen
  rw [add_rows_notin _ _ _ _ hfree, add_rows_notin _ _ _ _ hig]
  rfl

/-! Right-hand-side characterization. -/

theorem d_x_eq_zero {N : ℕ} (g : NodeGroups N) (r : Fin N) : d_x g r = 0 := by
  unfold d_x
  by_cases h1 : r ∈ g.fixed
  · exact setRows_mem _ _ _ _ h1
  rw [setRows_notin _ _ _ _ h1]
  by_cases h2 : r ∈ g.free
  · exact setRows_mem _ _ _ _ h2
  rw [setRows_notin _ _ _ _ h2]
  by_cases h3 : r ∈ interiorGhosts g
  · exact setRows_mem _ _ _ _ h3
  rw [setRows_notin _ _ _ _ h3]

theorem d_y_fixed_row {N : ℕ} (g : NodeGroups N) (bf : ℚ) (r : Fin N) (h : r ∈ g.fixed) :
    d_y g bf r = 0 :=
  setRows_mem _ _ _ _ h

theorem d_y_free_row {N : ℕ} (g : NodeGroups N) (bf : ℚ) (r : Fin N) (hfix : r ∉ g.fixed)
    (h : r ∈ g.free) : d_y g bf r = 0 := by
  unfold d_y
  rw [setRows_notin _ _ _ _ hfix]
  exact setRows_mem _ _ _ _ h

theorem d_y_ig_row {N : ℕ} (g : NodeGroups N) (bf : ℚ) (r : Fin N) (hfix : r ∉ g.fixed)
    (hfree : r ∉ g.free) (h : r ∈ interiorGhosts g) : d_y g bf r = bf := by
  unfold d_y
  rw [setRows_notin _ _ _ _ hfix, setRows_notin _ _ _ _ hfree]
  exact setRows_mem _ _ _ _ h

theorem d_y_untouched_row {N : ℕ} (g : NodeGroups N) (bf : ℚ) (r : Fin N) (hfix : r ∉ g.fixed)
    (hfree : r ∉ g.free) (h : r ∉ interiorGhosts g) : d_y g bf r = 0 := by
  unfold d_y
  rw [setRows_notin _ _ _ _ hfix, setRows_notin _ _ _ _ hfree,
      setRows_notin _ _ _ _ h]

theorem mem_zip_fst {N : ℕ} {α : Type} (idx : List (Fin N)) (B : List α) (r : Fin N)
    (h : r ∈ (idx.zip B).map Prod.fst) : r ∈ idx := by
  rcases List.mem_map.1 h with ⟨⟨a, b⟩, hp, hfst⟩
  exact hfst ▸ (List.of_mem_zip hp).1

theorem scatter_pred {N : ℕ} {α : Type} (P : α → Prop) (ps : List (Fin N × α))
    (hps : ∀ p ∈ ps, P p.2) : ∀ (M : Fin N → α), (∀ r, P (M r)) → ∀ r, P (scatter M ps r) := by
  induction ps with
  | nil => exact fun M hM r => hM r
  | cons p t ih =>
      intro M hM r
      have hstep : scatter M (p :: t) = scatter (upd M p.1 p.2) t := rfl
      rw [hstep]
      refine ih (fun q hq => hps q (List.mem_cons_of_mem _ hq)) _ ?_ r
      intro s
      by_cases hs : s = p.1
      · simpa [upd, hs] using hps p (List.mem_cons_self _ _)
      · simpa [upd, hs] using hM s

theorem add_rows_pred {N : ℕ} {α : Type} (P : α → Prop) (A : Fin N → α) (B : List α)
    (idx : List (Fin N)) (hA : ∀ r, P (A r)) (hB : ∀ b ∈ B, P b) (r : Fin N) :
    P (add_rows A B idx r) := by
  refine scatter_pred P _ ?_ A hA r
  intro p hp
  exact hB p.2 (List.of_mem_zip (by exact hp)).2

theorem applyStage_comm {N : ℕ} {α : Type} (M : Fin N → α) (s t : Stage N α)
    (h : StageDisjoint s t) :
    applyStage (applyStage M s) t = applyStage (applyStage M t) s := by
  funext r
  by_cases hws : r ∈ (s.1.zip s.2).map Prod.fst
  · have hrt : r ∉ t.1 := h r (mem_zip_fst _ _ _ hws)
    have h1 : applyStage (applyStage M s) t r = applyStage M s r :=
      add_rows_notin _ _ _ _ hrt
    rw [h1]
    exact scatter_mem_congr M (applyStage M t) _ r hws
  · by_cases hwt : r ∈ (t.1.zip t.2).map Prod.fst
    · have hrs : r ∉ s.1 := fun hm => h r hm (mem_zip_fst _ _ _ hwt)
      have h1 : applyStage (applyStage M t) s r = applyStage M t r :=
        add_rows_notin _ _ _ _ hrs
      rw [h1]
      exact scatter_mem_congr (applyStage M s) M _ r hwt
    · have h1 : applyStage (applyStage M s) t r = applyStage M s r := scatter_notin _ _ _ hwt
      have h2 : applyStage M s r = M r := scatter_notin _ _ _ hws
      have h3 : applyStage (applyStage M t) s r = applyStage M t r := scatter_notin _ _ _ hws
      have h4 : applyStage M t r = M r := scatter_notin _ _ _ hwt
      rw [h1, h2, h3, h4]

theorem stageDisjoint_symm {N : ℕ} {α : Type} :
    Symmetric (fun s t : Stage N α => StageDisjoint s t) :=
  fun _ _ h r hr hs => h r hs hr

theorem applyStages_perm {N : ℕ} {α : Type} (l1 l2 : List (Stage N α)) (hperm : l1.Perm l2)
    (hpw : l1.Pairwise StageDisjoint) (M : Fin N → α) :
    applyStages M l1 = applyStages M l2 := by
  revert hpw
  induction hperm generalizing M with
  | nil => intro _; rfl
  | cons x h ih =>
      intro hpw
      have hx := List.pairwise_cons.1 hpw
      exact ih (applyStage M x) hx.2
  | swap x y l =>
      intro hpw
      have hyx : StageDisjoint y x := (List.pairwise_cons.1 hpw).1 x (List.mem_cons_self _ _)
      have hgoal : applyStages (applyStage (applyStage M y) x) l =
          applyStages (applyStage (applyStage M x) y) l := by
        rw [applyStage_comm M y x hyx]
      exact hgoal
  | trans h1 h2 ih1 ih2 =>
      intro hpw
      rw [ih1 M hpw, ih2 M ((List.Perm.pairwise_iff (fun hst => stageDisjoint_symm hst) h1).1 hpw)]

theorem G_xx_gen_eq_stages {N : ℕ} (D : ℕ → ℕ → Fin N → Fin N → ℚ) (g : NodeGroups N)
    (lamb mu : ℚ) (c1 c2 : Fin N → ℚ) :
    G_xx_gen D g lamb mu c1 c2 = applyStages (zeroM N) (xxStages D g lamb mu c1 c2) :=
  rfl

theorem G_xy_gen_eq_stages {N : ℕ} (D : ℕ → ℕ → Fin N → Fin N → ℚ) (g : NodeGroups N)
    (lamb mu : ℚ) (c1 c2 : Fin N → ℚ) :
    G_xy_gen D g lamb mu c1 c2 = applyStages (zeroM N) (xyStages D g lamb mu c1 c2) :=
  rfl

theorem G_yx_gen_eq_stages {N : ℕ} (D : ℕ → ℕ → Fin N → Fin N → ℚ) (g : NodeGroups N)
    (lamb mu : ℚ) (c1 c2 : Fin N → ℚ) :
    G_yx_gen D g lamb mu c1 c2 = applyStages (zeroM N) (yxStages D g lamb mu c1 c2) :=
  rfl

theorem G_yy_gen_eq_stages {N : ℕ} (D : ℕ → ℕ → Fin N → Fin N → ℚ) (g : NodeGroups N)
    (lamb mu : ℚ) (c1 c2 : Fin N → ℚ) :
    G_yy_gen D g lamb mu c1 c2 = applyStages (zeroM N) (yyStages D g lamb mu c1 c2) :=
  rfl

theorem d_y_eq_stages {N : ℕ} (g : NodeGroups N) (body_force : ℚ) :
    d_y g body_force = applyStages (fun _ => 0) (dyStages g body_force) :=
  rfl

theorem d_y_zero_bf {N : ℕ} (g : NodeGroups N) (r : Fin N) : d_y g 0 r = 0 := by
  by_cases h1 : r ∈ g.fixed
  · exact d_y_fixed_row g 0 r h1
  by_cases h2 : r ∈ g.free
  · exact d_y_free_row g 0 r h1 h2
  by_cases h3 : r ∈ interiorGhosts g
  · exact d_y_ig_row g 0 r h1 h2 h3
  · exact d_y_untouched_row g 0 r h1 h2 h3

theorem G_xy_zero_lame {N : ℕ} (D : ℕ → ℕ → Fin N → Fin N → ℚ) (g : NodeGroups N)
    (nx ny : Fin N → ℚ) (r j : Fin N) : G_xy D g nx ny 0 0 r j = 0 := by
  have hz : ∀ q : Fin N, (fun row : Fin _ → ℚ => ∀ i, row i = 0) (zeroM N q) := fun _ _ => rfl
  have h1 : ∀ q i, add_rows (zeroM N)
      (weight_matrix D (interiorFree g) [((1, 1), fun _ => (0 : ℚ)), ((1, 1), fun _ => (0 : ℚ))])
      (interiorGhosts g) q i = 0 := by
    intro q
    refine add_rows_pred (fun row : Fin _ → ℚ => ∀ i, row i = 0) _ _ _ hz ?_ q
    intro b hb i
    rcases List.mem_map.1 hb with ⟨p, _, hp⟩
    rw [← hp]
    simp
  refine add_rows_pred (fun row : Fin _ → ℚ => ∀ i, row i = 0) _ _ _ (fun q => ?_) ?_ r j
  · intro i
    exact h1 q i
  · intro b hb i
    rcases List.mem_map.1 hb with ⟨p, _, hp⟩
    rw [← hp]
    simp

theorem G_yx_zero_lame {N : ℕ} (D : ℕ → ℕ → Fin N → Fin N → ℚ) (g : NodeGroups N)
    (nx ny : Fin N → ℚ) (r j : Fin N) : G_yx D g nx ny 0 0 r j = 0 := by
  have hz : ∀ q : Fin N, (fun row : Fin _ → ℚ => ∀ i, row i = 0) (zeroM N q) := fun _ _ => rfl
  have h1 : ∀ q i, add_rows (zeroM N)
      (weight_matrix D (interiorFree g) [((1, 1), fun _ => (0 : ℚ)), ((1, 1), fun _ => (0 : ℚ))])
      (interiorGhosts g) q i = 0 := by
    intro q
    refine add_rows_pred (fun row : Fin _ → ℚ => ∀ i, row i = 0) _ _ _ hz ?_ q
    intro b hb i
    rcases List.mem_map.1 hb with ⟨p, _, hp⟩
    rw [← hp]
    simp
  refine add_rows_pred (fun row : Fin _ → ℚ => ∀ i, row i = 0) _ _ _ (fun q => ?_) ?_ r j
  · intro i
    exact h1 q i
  · intro b hb i
    rcases List.mem_map.1 hb with ⟨p, _, hp⟩
    rw [← hp]
    simp

/-- C1: for every node in `interior+free`, each of the four blocks receives one
stencil row evaluated at that node, placed into the row position given by the
matching entry of `interior+ghosts` (so ghost rows carry the PDE for the free
nodes), with operator terms: xx = (λ+2μ)·∂²/∂x² + μ·∂²/∂y²,
xy = λ·∂²/∂x∂y + μ·∂²/∂x∂y, yx = μ·∂²/∂x∂y + λ·∂²/∂x∂y,
yy = (λ+2μ)·∂²/∂y² + μ·∂²/∂x². -/
theorem C1_pde_rows {N : ℕ} (D : ℕ → ℕ → Fin N → Fin N → ℚ) (g : NodeGroups N)
    (nx ny : Fin N → ℚ) (lamb mu : ℚ)
    (hnd : (interiorGhosts g).Nodup)
    (hdfix : ∀ r, r ∈ interiorGhosts g → r ∉ g.fixed)
    (hdfree : ∀ r, r ∈ interiorGhosts g → r ∉ g.free)
    (k : ℕ) (hk : k < (interiorFree g).length) (hk2 : k < (interiorGhosts g).length) :
    (G_xx D g nx ny lamb mu ((interiorGhosts g).get ⟨k, hk2⟩) =
      fun j => (lamb + 2 * mu) * D 2 0 ((interiorFree g).get ⟨k, hk⟩) j
        + mu * D 0 2 ((interiorFree g).get ⟨k, hk⟩) j)
    ∧ (G_xy D g nx ny lamb mu ((interiorGhosts g).get ⟨k, hk2⟩) =
      fun j => lamb * D 1 1 ((interiorFree g).get ⟨k, hk⟩) j
        + mu * D 1 1 ((interiorFree g).get ⟨k, hk⟩) j)
    ∧ (G_yx D g nx ny lamb mu ((interiorGhosts g).get ⟨k, hk2⟩) =
      fun j => mu * D 1 1 ((interiorFree g).get ⟨k, hk⟩) j
        + lamb * D 1 1 ((interiorFree g).get ⟨k, hk⟩) j)
    ∧ (G_yy D g nx ny lamb mu ((interiorGhosts g).get ⟨k, hk2⟩) =
      fun j => (lamb + 2 * mu) * D 0 2 ((interiorFree g).get ⟨k, hk⟩) j
        + mu * D 2 0 ((interiorFree g).get ⟨k, hk⟩) j) := by
  have hm : (interiorGhosts g).get ⟨k, hk2⟩ ∈ interiorGhosts g := List.get_mem _ _ _
  exact ⟨G_xx_gen_pde_row D g lamb mu _ _ hnd k hk2 hk (hdfix _ hm) (hdfree _ hm),
    G_xy_gen_pde_row D g lamb mu _ _ hnd k hk2 hk (hdfree _ hm),
    G_yx_gen_pde_row D g lamb mu _ _ hnd k hk2 hk (hdfree _ hm),
    G_yy_gen_pde_row D g lamb mu _ _ hnd k hk2 hk (hdfix _ hm) (hdfree _ hm)⟩

/-- Witness for C1 at the concrete layout `g4`: the PDE row evaluated at the
free node 2 lands in the row of its ghost node 3. -/
theorem C1_pde_rows_witness :
    ((interiorGhosts g4).Nodup ∧ (∀ r, r ∈ interiorGhosts g4 → r ∉ g4.fixed)
      ∧ (∀ r, r ∈ interiorGhosts g4 → r ∉ g4.free)
      ∧ 1 < (interiorFree g4).length ∧ 1 < (interiorGhosts g4).length)
    ∧ (G_xx D4 g4 nx4 ny4 1 2 ((interiorGhosts g4).get ⟨1, by decide⟩) =
        fun j => (1 + 2 * 2) * D4 2 0 ((interiorFree g4).get ⟨1, by decide⟩) j
          + 2 * D4 0 2 ((interiorFree g4).get ⟨1, by decide⟩) j) := by
  refine ⟨⟨by decide, by decide, by decide, by decide, by decide⟩, ?_⟩
  exact (C1_pde_rows D4 g4 nx4 ny4 1 2 (by decide) (by decide) (by decide) 1
    (by decide) (by decide)).1

/-- C2: for every node in `free`, each block receives in that node's own row a
zero-traction row, a combination of the two first derivatives with the node's
normal components scaled by λ, μ or λ+2μ — xx: n_x(λ+2μ)·∂/∂x + n_y·μ·∂/∂y,
xy: n_x·λ·∂/∂y + n_y·μ·∂/∂x, yx: n_x·μ·∂/∂y + n_y·λ·∂/∂x,
yy: n_y(λ+2μ)·∂/∂y + n_x·μ·∂/∂x. -/
theorem C2_traction_rows {N : ℕ} (D : ℕ → ℕ → Fin N → Fin N → ℚ) (g : NodeGroups N)
    (nx ny : Fin N → ℚ) (lamb mu : ℚ) (r : Fin N) (h : r ∈ g.free) :
    (G_xx D g nx ny lamb mu r =
      fun j => nx r * (lamb + 2 * mu) * D 1 0 r j + ny r * mu * D 0 1 r j)
    ∧ (G_xy D g nx ny lamb mu r =
      fun j => nx r * lamb * D 0 1 r j + ny r * mu * D 1 0 r j)
    ∧ (G_yx D g nx ny lamb mu r =
      fun j => nx r * mu * D 0 1 r j + ny r * lamb * D 1 0 r j)
    ∧ (G_yy D g nx ny lamb mu r =
      fun j => ny r * (lamb + 2 * mu) * D 0 1 r j + nx r * mu * D 1 0 r j) :=
  ⟨G_xx_gen_free_row D g lamb mu _ _ r h, G_xy_gen_free_row D g lamb mu _ _ r h,
    G_yx_gen_free_row D g lamb mu _ _ r h, G_yy_gen_free_row D g lamb mu _ _ r h⟩

/-- Witness for C2 at the free node 2 of the concrete layout `g4`. -/
theorem C2_traction_rows_witness :
    ((2 : Fin 4) ∈ g4.free)
    ∧ (G_xx D4 g4 nx4 ny4 1 2 2 =
        fun j => nx4 2 * (1 + 2 * 2) * D4 1 0 2 j + ny4 2 * 2 * D4 0 1 2 j) := by
  refine ⟨by decide, ?_⟩
  exact (C2_traction_rows D4 g4 nx4 ny4 1 2 2 (by decide)).1

/-- C3: for every node in `fixed`, the xx and yy rows are exactly the identity
row, the xy and yx rows are zero, and both right-hand-side entries for that
node are 0.  The identity shape of the (0,0) stencil is the contract the
source itself asserts (lines 93-95: "These matrices turn out to be identity
matrices"). -/
theorem C3_dirichlet_rows {N : ℕ} (D : ℕ → ℕ → Fin N → Fin N → ℚ) (g : NodeGroups N)
    (nx ny : Fin N → ℚ) (lamb mu body_force : ℚ)
    (hD00 : ∀ p j, D 0 0 p j = if j = p then 1 else 0)
    (hfr : ∀ r, r ∈ g.fixed → r ∉ g.free)
    (hin : ∀ r, r ∈ g.fixed → r ∉ g.interior)
    (hgh : ∀ r, r ∈ g.fixed → r ∉ g.free_ghosts)
    (r : Fin N) (h : r ∈ g.fixed) :
    (G_xx D g nx ny lamb mu r = fun j => if j = r then 1 else 0)
    ∧ (G_yy D g nx ny lamb mu r = fun j => if j = r then 1 else 0)
    ∧ (G_xy D g nx ny lamb mu r = fun _ => 0)
    ∧ (G_yx D g nx ny lamb mu r = fun _ => 0)
    ∧ d_x g r = 0 ∧ d_y g body_force r = 0 := by
  have hfree : r ∉ g.free := hfr r h
  have hig : r ∉ interiorGhosts g := by
    intro hm
    rcases List.mem_append.1 hm with h1 | h2
    · exact hin r h h1
    · exact hgh r h h2
  refine ⟨?_, ?_, ?_, ?_, d_x_eq_zero g r, d_y_fixed_row g body_force r h⟩
  · have hrow := G_xx_gen_fixed_row D g lamb mu
      (fun p => nx p * (lamb + 2 * mu)) (fun p => ny p * mu) r h hfree
    rw [show G_xx D g nx ny lamb mu = G_xx_gen D g lamb mu
      (fun p => nx p * (lamb + 2 * mu)) (fun p => ny p * mu) from rfl, hrow]
    funext j
    rw [hD00]
  · have hrow := G_yy_gen_fixed_row D g lamb mu
      (fun p => ny p * (lamb + 2 * mu)) (fun p => nx p * mu) r h hfree
    rw [show G_yy D g nx ny lamb mu = G_yy_gen D g lamb mu
      (fun p => ny p * (lamb + 2 * mu)) (fun p => nx p * mu) from rfl, hrow]
    funext j
    rw [hD00]
  · exact G_xy_gen_untouched_row D g lamb mu _ _ r hig hfree
  · exact G_yx_gen_untouched_row D g lamb mu _ _ r hig hfree

/-- Witness for C3 at the fixed node 1 of `g4`, with the identity-valued
(0,0) stencil family `D4id`. -/
theorem C3_dirichlet_rows_witness :
    ((∀ p j, D4id 0 0 p j = if j = p then 1 else 0) ∧ (1 : Fin 4) ∈ g4.fixed)
    ∧ (G_xx D4id g4 nx4 ny4 1 2 1 = fun j => if j = (1 : Fin 4) then 1 else 0)
    ∧ d_y g4 7 1 = 0 := by
  refine ⟨⟨by decide, by decide⟩, ?_, ?_⟩
  · exact (C3_dirichlet_rows D4id g4 nx4 ny4 1 2 7 (by decide) (by decide) (by decide)
      (by decide) 1 (by decide)).1
  · exact (C3_dirichlet_rows D4id g4 nx4 ny4 1 2 7 (by decide) (by decide) (by decide)
      (by decide) 1 (by decide)).2.2.2.2.2

/-- C5: the right-hand side is zero everywhere except the y entries indexed
by `interior+ghosts`, which all equal the body-force magnitude; the sum of
the y half is body_force times the cardinality of `interior+ghosts`, and the
whole x half is zero. -/
theorem C5_rhs {N : ℕ} (g : NodeGroups N) (body_force : ℚ)
    (hnd : (interiorGhosts g).Nodup)
    (hdfree : ∀ r, r ∈ interiorGhosts g → r ∉ g.free)
    (hdfix : ∀ r, r ∈ interiorGhosts g → r ∉ g.fixed) :
    (∀ r, d_x g r = 0)
    ∧ (∀ r, r ∈ interiorGhosts g → d_y g body_force r = body_force)
    ∧ (∀ r, r ∉ interiorGhosts g → d_y g body_force r = 0)
    ∧ (∑ r, d_y g body_force r) = body_force * (interiorGhosts g).length := by
  have hin : ∀ r, r ∈ interiorGhosts g → d_y g body_force r = body_force := fun r hr =>
    d_y_ig_row g body_force r (hdfix r hr) (hdfree r hr) hr
  have hout : ∀ r, r ∉ interiorGhosts g → d_y g body_force r = 0 := by
    intro r hr
    by_cases h1 : r ∈ g.fixed
    · exact d_y_fixed_row g body_force r h1
    by_cases h2 : r ∈ g.free
    · exact d_y_free_row g body_force r h1 h2
    · exact d_y_untouched_row g body_force r h1 h2 hr
  refine ⟨d_x_eq_zero g, hin, hout, ?_⟩
  have hval : ∀ r, d_y g body_force r = if r ∈ interiorGhosts g then body_force else 0 := by
    intro r
    by_cases hr : r ∈ interiorGhosts g
    · rw [if_pos hr]
      exact hin r hr
    · rw [if_neg hr]
      exact hout r hr
  calc (∑ r, d_y g body_force r)
      = ∑ r, (if r ∈ interiorGhosts g then body_force else 0) :=
        Finset.sum_congr rfl (fun r _ => hval r)
    _ = ∑ r in Finset.univ.filter (fun r => r ∈ interiorGhosts g), body_force :=
        (Finset.sum_filter _ _).symm
    _ = (Finset.univ.filter (fun r => r ∈ interiorGhosts g)).card • body_force :=
        Finset.sum_const body_force
    _ = body_force * (interiorGhosts g).length := by
        rw [nsmul_eq_mul, mul_comm]
        congr 1
        have hset : Finset.univ.filter (fun r => r ∈ interiorGhosts g)
            = (interiorGhosts g).toFinset := by
          ext x
          simp
        rw [hset, List.toFinset_card_of_nodup hnd]

/-- Witness for C5 at the concrete layout `g4` with body force 7. -/
theorem C5_rhs_witness :
    ((interiorGhosts g4).Nodup ∧ (∀ r, r ∈ interiorGhosts g4 → r ∉ g4.free)
      ∧ (∀ r, r ∈ interiorGhosts g4 → r ∉ g4.fixed))
    ∧ (∑ r, d_y g4 7 r) = 7 * (interiorGhosts g4).length := by
  refine ⟨⟨by decide, by decide, by decide⟩, ?_⟩
  exact (C5_rhs g4 7 (by decide) (by decide) (by decide)).2.2.2

/-- C7: two assemblies that differ only in the traction-stage coefficient
computation (the normals and the λ, μ used there) agree on every row outside
`free`, in all four blocks; the script's blocks are the instance
`lambT = lamb`, `muT = mu` (see `G_xx` and friends). -/
theorem C7_traction_isolation {N : ℕ} (D : ℕ → ℕ → Fin N → Fin N → ℚ) (g : NodeGroups N)
    (lamb mu : ℚ) (nx ny nx2 ny2 : Fin N → ℚ) (lambT muT lambT2 muT2 : ℚ)
    (r : Fin N) (h : r ∉ g.free) :
    (G_xx_gen D g lamb mu (fun p => nx p * (lambT + 2 * muT)) (fun p => ny p * muT) r
      = G_xx_gen D g lamb mu (fun p => nx2 p * (lambT2 + 2 * muT2)) (fun p => ny2 p * muT2) r)
    ∧ (G_xy_gen D g lamb mu (fun p => nx p * lambT) (fun p => ny p * muT) r
      = G_xy_gen D g lamb mu (fun p => nx2 p * lambT2) (fun p => ny2 p * muT2) r)
    ∧ (G_yx_gen D g lamb mu (fun p => nx p * muT) (fun p => ny p * lambT) r
      = G_yx_gen D g lamb mu (fun p => nx2 p * muT2) (fun p => ny2 p * lambT2) r)
    ∧ (G_yy_gen D g lamb mu (fun p => ny p * (lambT + 2 * muT)) (fun p => nx p * muT) r
      = G_yy_gen D g lamb mu (fun p => ny2 p * (lambT2 + 2 * muT2)) (fun p => nx2 p * muT2) r)
    := by
  refine ⟨?_, ?_, ?_, ?_⟩
  · unfold G_xx_gen
    rw [add_rows_notin _ _ _ _ h, add_rows_notin _ _ _ _ h]
  · unfold G_xy_gen
    rw [add_rows_notin _ _ _ _ h, add_rows_notin _ _ _ _ h]
  · unfold G_yx_gen
    rw [add_rows_notin _ _ _ _ h, add_rows_notin _ _ _ _ h]
  · unfold G_yy_gen
    rw [add_rows_notin _ _ _ _ h, add_rows_notin _ _ _ _ h]

/-- Witness for C7 at the fixed node 1 of `g4`: swapping the normals and
changing the traction λ, μ leaves the row unchanged. -/
theorem C7_traction_isolation_witness :
    ((1 : Fin 4) ∉ g4.free)
    ∧ G_xx_gen D4 g4 1 2 (fun p => nx4 p * (1 + 2 * 2)) (fun p => ny4 p * 2) 1
      = G_xx_gen D4 g4 1 2 (fun p => ny4 p * (3 + 2 * 5)) (fun p => nx4 p * 5) 1 := by
  refine ⟨by decide, ?_⟩
  exact (C7_traction_isolation D4 g4 1 2 nx4 ny4 ny4 nx4 1 2 3 5 1 (by decide)).1

/-- C8: the strain post-processor computes e_xx = ∂u_x/∂x, e_yy = ∂u_y/∂y,
e_xy = ½(∂u_x/∂y + ∂u_y/∂x) and I2 = sqrt(e_xx² + e_yy² + 2·e_xy²), and I2
is non-negative at every node for every displacement field. -/
theorem C8_strain {N : ℕ} (D_x D_y : Fin N → Fin N → ℝ) (u_x u_y : Fin N → ℝ) :
    (∀ p, e_xx D_x u_x p = ∑ j, D_x p j * u_x j)
    ∧ (∀ p, e_yy D_y u_y p = ∑ j, D_y p j * u_y j)
    ∧ (∀ p, e_xy D_x D_y u_x u_y p
        = (1 / 2) * ((∑ j, D_y p j * u_x j) + ∑ j, D_x p j * u_y j))
    ∧ (∀ p, I2 D_x D_y u_x u_y p =
        Real.sqrt (e_xx D_x u_x p ^ 2 + e_yy D_y u_y p ^ 2
          + 2 * e_xy D_x D_y u_x u_y p ^ 2))
    ∧ (∀ p, 0 ≤ I2 D_x D_y u_x u_y p) :=
  ⟨fun _ => rfl, fun _ => rfl, fun _ => rfl, fun _ => rfl, fun _ => Real.sqrt_nonneg _⟩

theorem sum_ident_row {N : ℕ} (u : Fin N → ℚ) (r : Fin N) (row : Fin N → ℚ)
    (hrow : ∀ j, row j = if j = r then 1 else 0) : (∑ j, row j * u j) = u r := by
  have hterm : ∀ j : Fin N, row j * u j = if j = r then u j else 0 := by
    intro j
    rw [hrow j]
    by_cases hj : j = r
    · simp [hj]
    · simp [hj]
  rw [Finset.sum_congr rfl (fun j _ => hterm j)]
  simp

theorem solves_zero {N : ℕ} (D : ℕ → ℕ → Fin N → Fin N → ℚ) (g : NodeGroups N)
    (nx ny : Fin N → ℚ) (lamb mu : ℚ) :
    solves D g nx ny lamb mu 0 (fun _ => 0) (fun _ => 0) := by
  intro r
  constructor
  · simp [xEq, d_x_eq_zero]
  · simp [yEq, d_y_zero_bf]

theorem G_xx_zero_lame_notfix {N : ℕ} (D : ℕ → ℕ → Fin N → Fin N → ℚ) (g : NodeGroups N)
    (nx ny : Fin N → ℚ) (r j : Fin N) (hfix : r ∉ g.fixed) :
    G_xx D g nx ny 0 0 r j = 0 := by
  by_cases hf : r ∈ g.free
  · have hrow := G_xx_gen_free_row D g 0 0
      (fun p => nx p * (0 + 2 * 0)) (fun p => ny p * 0) r hf
    rw [show G_xx D g nx ny 0 0 = G_xx_gen D g 0 0
      (fun p => nx p * (0 + 2 * 0)) (fun p => ny p * 0) from rfl, hrow]
    simp
  · rw [show G_xx D g nx ny 0 0 = G_xx_gen D g 0 0
      (fun p => nx p * (0 + 2 * 0)) (fun p => ny p * 0) from rfl]
    unfold G_xx_gen
    rw [add_rows_notin _ _ _ _ hf, add_rows_notin _ _ _ _ hfix]
    refine add_rows_pred (fun row : Fin _ → ℚ => ∀ i, row i = 0) _ _ _ (fun q i => rfl) ?_ r j
    intro b hb i
    rcases List.mem_map.1 hb with ⟨p, _, hp⟩
    rw [← hp]
    simp

theorem G_yy_zero_lame_notfix {N : ℕ} (D : ℕ → ℕ → Fin N → Fin N → ℚ) (g : NodeGroups N)
    (nx ny : Fin N → ℚ) (r j : Fin N) (hfix : r ∉ g.fixed) :
    G_yy D g nx ny 0 0 r j = 0 := by
  by_cases hf : r ∈ g.free
  · have hrow := G_yy_gen_free_row D g 0 0
      (fun p => ny p * (0 + 2 * 0)) (fun p => nx p * 0) r hf
    rw [show G_yy D g nx ny 0 0 = G_yy_gen D g 0 0
      (fun p => ny p * (0 + 2 * 0)) (fun p => nx p * 0) from rfl, hrow]
    simp
  · rw [show G_yy D g nx ny 0 0 = G_yy_gen D g 0 0
      (fun p => ny p * (0 + 2 * 0)) (fun p => nx p * 0) from rfl]
    unfold G_yy_gen
    rw [add_rows_notin _ _ _ _ hf, add_rows_notin _ _ _ _ hfix]
    refine add_rows_pred (fun row : Fin _ → ℚ => ∀ i, row i = 0) _ _ _ (fun q i => rfl) ?_ r j
    intro b hb i
    rcases List.mem_map.1 hb with ⟨p, _, hp⟩
    rw [← hp]
    simp

theorem solves_u2 : solves D2id g2 z2 z2 0 0 0 u2 u2 := by
  have hxx0 : ∀ j, G_xx D2id g2 z2 z2 0 0 0 j = if j = 0 then 1 else 0 := by
    intro j
    have hrow := G_xx_gen_fixed_row D2id g2 0 0
      (fun p => z2 p * (0 + 2 * 0)) (fun p => z2 p * 0) 0 (by decide) (by decide)
    rw [show G_xx D2id g2 z2 z2 0 0 = G_xx_gen D2id g2 0 0
      (fun p => z2 p * (0 + 2 * 0)) (fun p => z2 p * 0) from rfl, hrow]
    rfl
  have hyy0 : ∀ j, G_yy D2id g2 z2 z2 0 0 0 j = if j = 0 then 1 else 0 := by
    intro j
    have hrow := G_yy_gen_fixed_row D2id g2 0 0
      (fun p => z2 p * (0 + 2 * 0)) (fun p => z2 p * 0) 0 (by decide) (by decide)
    rw [show G_yy D2id g2 z2 z2 0 0 = G_yy_gen D2id g2 0 0
      (fun p => z2 p * (0 + 2 * 0)) (fun p => z2 p * 0) from rfl, hrow]
    rfl
  intro r
  fin_cases r
  · constructor
    · show (∑ j, G_xx D2id g2 z2 z2 0 0 0 j * u2 j)
        + (∑ j, G_xy D2id g2 z2 z2 0 0 0 j * u2 j) = d_x g2 0
      rw [sum_ident_row u2 0 _ hxx0,
        Finset.sum_eq_zero (fun j _ => by rw [G_xy_zero_lame, zero_mul]), d_x_eq_zero]
      norm_num [u2]
    · show (∑ j, G_yx D2id g2 z2 z2 0 0 0 j * u2 j)
        + (∑ j, G_yy D2id g2 z2 z2 0 0 0 j * u2 j) = d_y g2 0 0
      rw [Finset.sum_eq_zero (fun j _ => by rw [G_yx_zero_lame, zero_mul]),
        sum_ident_row u2 0 _ hyy0, d_y_zero_bf]
      norm_num [u2]
  · constructor
    · show (∑ j, G_xx D2id g2 z2 z2 0 0 1 j * u2 j)
        + (∑ j, G_xy D2id g2 z2 z2 0 0 1 j * u2 j) = d_x g2 1
      rw [Finset.sum_eq_zero
          (fun j _ => by rw [G_xx_zero_lame_notfix D2id g2 z2 z2 1 j (by decide), zero_mul]),
        Finset.sum_eq_zero (fun j _ => by rw [G_xy_zero_lame, zero_mul]), d_x_eq_zero]
      norm_num
    · show (∑ j, G_yx D2id g2 z2 z2 0 0 1 j * u2 j)
        + (∑ j, G_yy D2id g2 z2 z2 0 0 1 j * u2 j) = d_y g2 0 1
      rw [Finset.sum_eq_zero (fun j _ => by rw [G_yx_zero_lame, zero_mul]),
        Finset.sum_eq_zero
          (fun j _ => by rw [G_yy_zero_lame_notfix D2id g2 z2 z2 1 j (by decide), zero_mul]),
        d_y_zero_bf]
      norm_num

/-- C4: in each block every row ends with exactly one semantic assignment:
when two condition types target the same row the later assignment replaces
(does not accumulate with) the earlier, in the deterministic order PDE rows
first, fixed-Dirichlet rows second, free-traction rows third.  Stated with no
disjointness assumptions, so it covers overlapping targets: a `free` row is
the traction row even if PDE or Dirichlet also wrote it, and a `fixed` row
(not in `free`) is the Dirichlet row even if the PDE stage wrote it. -/
theorem C4_row_replacement {N : ℕ} (D : ℕ → ℕ → Fin N → Fin N → ℚ) (g : NodeGroups N)
    (nx ny : Fin N → ℚ) (lamb mu : ℚ) :
    (∀ r, r ∈ g.free →
      (G_xx D g nx ny lamb mu r =
        fun j => nx r * (lamb + 2 * mu) * D 1 0 r j + ny r * mu * D 0 1 r j)
      ∧ (G_xy D g nx ny lamb mu r =
        fun j => nx r * lamb * D 0 1 r j + ny r * mu * D 1 0 r j)
      ∧ (G_yx D g nx ny lamb mu r =
        fun j => nx r * mu * D 0 1 r j + ny r * lamb * D 1 0 r j)
      ∧ (G_yy D g nx ny lamb mu r =
        fun j => ny r * (lamb + 2 * mu) * D 0 1 r j + nx r * mu * D 1 0 r j))
    ∧ (∀ r, r ∈ g.fixed → r ∉ g.free →
      (G_xx D g nx ny lamb mu r = fun j => D 0 0 r j)
      ∧ (G_yy D g nx ny lamb mu r = fun j => D 0 0 r j)) := by
  constructor
  · intro r hr
    exact ⟨G_xx_gen_free_row D g lamb mu _ _ r hr, G_xy_gen_free_row D g lamb mu _ _ r hr,
      G_yx_gen_free_row D g lamb mu _ _ r hr, G_yy_gen_free_row D g lamb mu _ _ r hr⟩
  · intro r hr hnf
    exact ⟨G_xx_gen_fixed_row D g lamb mu _ _ r hr hnf,
      G_yy_gen_fixed_row D g lamb mu _ _ r hr hnf⟩

/-- Witness for C4 at the overlapping layout `gOv`: node 1 is both a ghost
target (PDE stage) and a fixed target (Dirichlet stage); its final row is
exactly the Dirichlet row, not a sum. -/
theorem C4_row_replacement_witness :
    ((1 : Fin 3) ∈ gOv.fixed ∧ (1 : Fin 3) ∉ gOv.free ∧ (1 : Fin 3) ∈ interiorGhosts gOv)
    ∧ G_xx D3c gOv n3 n3 1 2 1 = fun j => D3c 0 0 1 j := by
  refine ⟨⟨by decide, by decide, by decide⟩, ?_⟩
  exact ((C4_row_replacement D3c gOv n3 n3 1 2).2 1 (by decide) (by decide)).1

/-- C9 fails as stated: with λ = μ = 0 and zero body force on the layout
`g2` (which has non-empty `fixed`), the nonzero displacement `(u2, u2)` also
solves the assembled system `G u = d`, so a vector solving the system need
not be the zero vector. -/
theorem C9_counterexample :
    g2.fixed ≠ [] ∧ solves D2id g2 z2 z2 0 0 0 u2 u2 ∧ ¬(u2 = fun _ => 0) := by
  refine ⟨by decide, solves_u2, by decide⟩

/-- C9 amended: with λ = μ = 0 and body force 0 (and the identity-valued
(0,0) stencil asserted by the source), the zero displacement solves the
assembled system, and every solution vanishes at the fixed nodes; solutions
need not vanish elsewhere, since all non-Dirichlet rows are then zero. -/
theorem C9_zero_lame {N : ℕ} (D : ℕ → ℕ → Fin N → Fin N → ℚ) (g : NodeGroups N)
    (nx ny : Fin N → ℚ)
    (hD00 : ∀ p j, D 0 0 p j = if j = p then 1 else 0)
    (hfr : ∀ r, r ∈ g.fixed → r ∉ g.free)
    (u_x u_y : Fin N → ℚ) (h : solves D g nx ny 0 0 0 u_x u_y) :
    solves D g nx ny 0 0 0 (fun _ => 0) (fun _ => 0)
    ∧ ∀ r, r ∈ g.fixed → u_x r = 0 ∧ u_y r = 0 := by
  constructor
  · intro r
    constructor
    · simp [xEq, d_x_eq_zero]
    · simp [yEq, d_y_zero_bf]
  · intro r hr
    have hfree : r ∉ g.free := hfr r hr
    have hxxrow : ∀ j, G_xx D g nx ny 0 0 r j = if j = r then 1 else 0 := by
      have hrow := G_xx_gen_fixed_row D g 0 0
        (fun p => nx p * (0 + 2 * 0)) (fun p => ny p * 0) r hr hfree
      intro j
      rw [show G_xx D g nx ny 0 0 = G_xx_gen D g 0 0
        (fun p => nx p * (0 + 2 * 0)) (fun p => ny p * 0) from rfl, hrow]
      show D 0 0 r j = if j = r then 1 else 0
      rw [hD00]
    have hyyrow : ∀ j, G_yy D g nx ny 0 0 r j = if j = r then 1 else 0 := by
      have hrow := G_yy_gen_fixed_row D g 0 0
        (fun p => ny p * (0 + 2 * 0)) (fun p => nx p * 0) r hr hfree
      intro j
      rw [show G_yy D g nx ny 0 0 = G_yy_gen D g 0 0
        (fun p => ny p * (0 + 2 * 0)) (fun p => nx p * 0) from rfl, hrow]
      show D 0 0 r j = if j = r then 1 else 0
      rw [hD00]
    have hx0 : (∑ j, G_xx D g nx ny 0 0 r j * u_x j)
        + (∑ j, G_xy D g nx ny 0 0 r j * u_y j) = 0 := by
      have hx := (h r).1
      rwa [d_x_eq_zero] at hx
    have hy0 : (∑ j, G_yx D g nx ny 0 0 r j * u_x j)
        + (∑ j, G_yy D g nx ny 0 0 r j * u_y j) = 0 := by
      have hy := (h r).2
      rwa [d_y_zero_bf] at hy
    have hsum1 : (∑ j, G_xx D g nx ny 0 0 r j * u_x j) = u_x r := by
      have hterm : ∀ j : Fin N, G_xx D g nx ny 0 0 r j * u_x j
          = if j = r then u_x j else 0 := by
        intro j
        rw [hxxrow j]
        by_cases hj : j = r
        · simp [hj]
        · simp [hj]
      rw [Finset.sum_congr rfl (fun j _ => hterm j)]
      simp
    have hsum2 : (∑ j, G_xy D g nx ny 0 0 r j * u_y j) = 0 := by
      refine Finset.sum_eq_zero fun j _ => ?_
      rw [G_xy_zero_lame, zero_mul]
    have hsum3 : (∑ j, G_yx D g nx ny 0 0 r j * u_x j) = 0 := by
      refine Finset.sum_eq_zero fun j _ => ?_
      rw [G_yx_zero_lame, zero_mul]
    have hsum4 : (∑ j, G_yy D g nx ny 0 0 r j * u_y j) = u_y r := by
      have hterm : ∀ j : Fin N, G_yy D g nx ny 0 0 r j * u_y j
          = if j = r then u_y j else 0 := by
        intro j
        rw [hyyrow j]
        by_cases hj : j = r
        · simp [hj]
        · simp [hj]
      rw [Finset.sum_congr rfl (fun j _ => hterm j)]
      simp
    constructor
    · rw [hsum1, hsum2] at hx0
      simpa using hx0
    · rw [hsum3, hsum4] at hy0
      simpa using hy0

/-- Witness for C9's amended statement at the layout `g2`, using the
nonzero solution `(u2, u2)`: the zero field also solves, and the solution
vanishes at the fixed node 0. -/
theorem C9_zero_lame_witness :
    ((∀ p j, D2id 0 0 p j = if j = p then 1 else 0)
      ∧ solves D2id g2 z2 z2 0 0 0 u2 u2)
    ∧ (solves D2id g2 z2 z2 0 0 0 (fun _ => 0) (fun _ => 0) ∧ u2 0 = 0 ∧ u2 0 = 0) := by
  refine ⟨⟨fun p j => rfl, solves_u2⟩, ?_, ?_, ?_⟩
  · exact (C9_zero_lame D2id g2 z2 z2 (fun p j => rfl) (by decide) u2 u2 solves_u2).1
  · exact ((C9_zero_lame D2id g2 z2 z2 (fun p j => rfl) (by decide) u2 u2 solves_u2).2
      0 (by decide)).1
  · exact ((C9_zero_lame D2id g2 z2 z2 (fun p j => rfl) (by decide) u2 u2 solves_u2).2
      0 (by decide)).2

/-- C10: when the base groups are pairwise disjoint, the three row-target
sets used by assembly (`interior+ghosts`, `fixed`, `free`) are pairwise
disjoint, and the assembled blocks and the y right-hand side are invariant
under any permutation of their assembly stages — the overwrite order is
never exercised. -/
theorem C10_stage_order_invariance {N : ℕ} (D : ℕ → ℕ → Fin N → Fin N → ℚ)
    (g : NodeGroups N) (lamb mu body_force : ℚ) (c1 c2 d1 d2 e1 e2 f1 f2 : Fin N → ℚ)
    (h1 : ∀ r, r ∈ g.interior → r ∉ g.fixed)
    (h2 : ∀ r, r ∈ g.interior → r ∉ g.free)
    (h3 : ∀ r, r ∈ g.fixed → r ∉ g.free)
    (h4 : ∀ r, r ∈ g.fixed → r ∉ g.free_ghosts)
    (h5 : ∀ r, r ∈ g.free → r ∉ g.free_ghosts) :
    ((∀ r, r ∈ interiorGhosts g → r ∉ g.fixed)
      ∧ (∀ r, r ∈ interiorGhosts g → r ∉ g.free)
      ∧ (∀ r, r ∈ g.fixed → r ∉ g.free))
    ∧ (∀ l, l.Perm (xxStages D g lamb mu c1 c2) →
        applyStages (zeroM N) l = G_xx_gen D g lamb mu c1 c2)
    ∧ (∀ l, l.Perm (xyStages D g lamb mu d1 d2) →
        applyStages (zeroM N) l = G_xy_gen D g lamb mu d1 d2)
    ∧ (∀ l, l.Perm (yxStages D g lamb mu e1 e2) →
        applyStages (zeroM N) l = G_yx_gen D g lamb mu e1 e2)
    ∧ (∀ l, l.Perm (yyStages D g lamb mu f1 f2) →
        applyStages (zeroM N) l = G_yy_gen D g lamb mu f1 f2)
    ∧ (∀ l, l.Perm (dyStages g body_force) →
        applyStages (fun _ => 0) l = d_y g body_force) := by
  have digfix : ∀ r, r ∈ interiorGhosts g → r ∉ g.fixed := by
    intro r hm
    rcases List.mem_append.1 hm with ha | hb
    · exact h1 r ha
    · intro hf
      exact h4 r hf hb
  have digfree : ∀ r, r ∈ interiorGhosts g → r ∉ g.free := by
    intro r hm
    rcases List.mem_append.1 hm with ha | hb
    · exact h2 r ha
    · intro hf
      exact h5 r hf hb
  have hpw3 : ∀ (w1 : List (Fin N → ℚ)) (w2 : List (Fin N → ℚ)) (w3 : List (Fin N → ℚ)),
      ([(interiorGhosts g, w1), (g.fixed, w2), (g.free, w3)]
        : List (Stage N (Fin N → ℚ))).Pairwise StageDisjoint := by
    intro w1 w2 w3
    refine List.Pairwise.cons ?_ (List.Pairwise.cons ?_ (List.pairwise_singleton _ _))
    · intro t ht
      rcases List.mem_cons.1 ht with rfl | ht2
      · exact fun r hr => digfix r hr
      · rcases List.mem_cons.1 ht2 with rfl | ht3
        · exact fun r hr => digfree r hr
        · exact absurd ht3 (List.not_mem_nil t)
    · intro t ht
      rcases List.mem_cons.1 ht with rfl | ht2
      · exact fun r hr => h3 r hr
      · exact absurd ht2 (List.not_mem_nil t)
  have hpw2 : ∀ (w1 : List (Fin N → ℚ)) (w3 : List (Fin N → ℚ)),
      ([(interiorGhosts g, w1), (g.free, w3)]
        : List (Stage N (Fin N → ℚ))).Pairwise StageDisjoint := by
    intro w1 w3
    refine List.Pairwise.cons ?_ (List.pairwise_singleton _ _)
    intro t ht
    rcases List.mem_cons.1 ht with rfl | ht2
    · exact fun r hr => digfree r hr
    · exact absurd ht2 (List.not_mem_nil t)
  have hpwdy : (dyStages g body_force).Pairwise StageDisjoint := by
    refine List.Pairwise.cons ?_ (List.Pairwise.cons ?_ (List.pairwise_singleton _ _))
    · intro t ht
      rcases List.mem_cons.1 ht with rfl | ht2
      · exact fun r hr => digfree r hr
      · rcases List.mem_cons.1 ht2 with rfl | ht3
        · exact fun r hr => digfix r hr
        · exact absurd ht3 (List.not_mem_nil t)
    · intro t ht
      rcases List.mem_cons.1 ht with rfl | ht2
      · exact fun r hr hf => h3 r hf hr
      · exact absurd ht2 (List.not_mem_nil t)
  refine ⟨⟨digfix, digfree, h3⟩, ?_, ?_, ?_, ?_, ?_⟩
  · intro l hl
    exact (applyStages_perm l _ hl
      ((List.Perm.pairwise_iff (fun hst => stageDisjoint_symm hst) hl).2 (hpw3 _ _ _))
      (zeroM N)).trans (G_xx_gen_eq_stages D g lamb mu c1 c2).symm
  · intro l hl
    exact (applyStages_perm l _ hl
      ((List.Perm.pairwise_iff (fun hst => stageDisjoint_symm hst) hl).2 (hpw2 _ _))
      (zeroM N)).trans (G_xy_gen_eq_stages D g lamb mu d1 d2).symm
  · intro l hl
    exact (applyStages_perm l _ hl
      ((List.Perm.pairwise_iff (fun hst => stageDisjoint_symm hst) hl).2 (hpw2 _ _))
      (zeroM N)).trans (G_yx_gen_eq_stages D g lamb mu e1 e2).symm
  · intro l hl
    exact (applyStages_perm l _ hl
      ((List.Perm.pairwise_iff (fun hst => stageDisjoint_symm hst) hl).2 (hpw3 _ _ _))
      (zeroM N)).trans (G_yy_gen_eq_stages D g lamb mu f1 f2).symm
  · intro l hl
    exact (applyStages_perm l _ hl
      ((List.Perm.pairwise_iff (fun hst => stageDisjoint_symm hst) hl).2 hpwdy)
      (fun _ => 0)).trans (d_y_eq_stages g body_force).symm

/-- Witness for C10 at the concrete layout `g4`: running the xx stages in
reversed order yields the same assembled block. -/
theorem C10_stage_order_invariance_witness :
    ((∀ r, r ∈ g4.interior → r ∉ g4.fixed) ∧ (∀ r, r ∈ g4.interior → r ∉ g4.free)
      ∧ (∀ r, r ∈ g4.fixed → r ∉ g4.free) ∧ (∀ r, r ∈ g4.fixed → r ∉ g4.free_ghosts)
      ∧ (∀ r, r ∈ g4.free → r ∉ g4.free_ghosts))
    ∧ applyStages (zeroM 4) (xxStages D4 g4 1 2 nx4 ny4).reverse
      = G_xx_gen D4 g4 1 2 nx4 ny4 := by
  refine ⟨⟨by decide, by decide, by decide, by decide, by decide⟩, ?_⟩
  exact (C10_stage_order_invariance D4 g4 1 2 7 nx4 ny4 nx4 ny4 nx4 ny4 nx4 ny4
    (by decide) (by decide) (by decide) (by decide) (by decide)).2.1 _ (List.reverse_perm _)

/-- C6 amended: with every `add_rows` call dimension-checked (modelled from
the spec's DimensionMismatch condition), the script's assembly fails exactly
when the PDE stage's produced row count |interior+free| disagrees with its
target row count |interior+ghosts| — equivalently when |free| ≠
|free_ghosts| — and otherwise returns the four blocks; in particular nothing
is raised when `fixed` is empty. -/
theorem C6_dimension_check {N : ℕ} (D : ℕ → ℕ → Fin N → Fin N → ℚ) (g : NodeGroups N)
    (nx ny : Fin N → ℚ) (lamb mu : ℚ) :
    (assembleChecked D g nx ny lamb mu
      = Except.ok (G_xx D g nx ny lamb mu, G_xy D g nx ny lamb mu,
          G_yx D g nx ny lamb mu, G_yy D g nx ny lamb mu))
    ↔ g.free.length = g.free_ghosts.length := by
  have hiff : ((interiorFree g).length = (interiorGhosts g).length)
      ↔ (g.free.length = g.free_ghosts.length) := by
    simp only [interiorFree, interiorGhosts, List.length_append]
    omega
  constructor
  · intro h
    by_contra hne
    have hC : ¬ ((weight_matrix D (interiorFree g)
        [((2, 0), fun _ => lamb + 2 * mu), ((0, 2), fun _ => mu)]).length
          = (interiorGhosts g).length) := by
      rw [weight_matrix_length]
      exact fun hc => hne (hiff.1 hc)
    unfold assembleChecked add_rows_checked at h
    rw [if_neg hC] at h
    simp [Except.bind] at h
  · intro hlen
    have hC : (interiorFree g).length = (interiorGhosts g).length := hiff.2 hlen
    simp [assembleChecked, add_rows_checked, weight_matrix_length, hC, Except.bind,
      G_xx, G_xy, G_yx, G_yy, G_xx_gen, G_xy_gen, G_yx_gen, G_yy_gen]

/-- C6 counterexample: on the concrete layout `gNoFix`, whose `fixed` group
is empty, the dimension-checked assembly completes normally and returns the
assembled blocks — no warning or failure of any kind arises from `fixed`
being empty. -/
theorem C6_counterexample :
    gNoFix.fixed = []
    ∧ assembleChecked D3c gNoFix n3 n3 1 2
      = Except.ok (G_xx D3c gNoFix n3 n3 1 2, G_xy D3c gNoFix n3 n3 1 2,
          G_yx D3c gNoFix n3 n3 1 2, G_yy D3c gNoFix n3 n3 1 2) := by
  exact ⟨rfl, by rfl⟩

end RBF
